import Mathlib

/-!
# Verification of the msgraph-sdk-javascript large-file-upload core

Shallow embedding of the resumable large-object upload task
(`LargeFileUploadTask`), the stream-backed content source
(`StreamUpload`) and the page iterator (`PageIterator`), together with
theorems settling the specification claims.

The `LargeFileUploadTask` implementation itself is not part of the
source tree (only its test suite is), so its operations are modelled
from the specification, with the concrete behaviour pinned by the
assertions of `src/test/common/tasks/LargeFileUploadTask.ts`.
-/

namespace MSGraph

/-- A closed inclusive byte range `[minValue, maxValue]`; the pair
`(-1, -1)` is the empty/unset sentinel. Mirrors `src/Range.ts`. -/
structure Range where
  minValue : Int
  maxValue : Int
  deriving DecidableEq, Repr

/-- The empty sentinel range `{-1,-1}`. -/
def emptyRange : Range := ⟨-1, -1⟩

/-- Whether a range is the empty sentinel. -/
def Range.isEmptySentinel (r : Range) : Bool :=
  r.minValue == -1 && r.maxValue == -1

/-- Decimal digit character for a digit value `d < 10`. -/
def digitChar (d : Nat) : Char :=
  match d with
  | 0 => '0'
  | 1 => '1'
  | 2 => '2'
  | 3 => '3'
  | 4 => '4'
  | 5 => '5'
  | 6 => '6'
  | 7 => '7'
  | 8 => '8'
  | 9 => '9'
  | _ => '*'

/-- Decimal representation of a natural number as a character list,
most significant digit first. -/
def natChars (n : Nat) : List Char :=
  if h : n < 10 then [digitChar n]
  else natChars (n / 10) ++ [digitChar (n % 10)]
decreasing_by
  exact Nat.div_lt_self (by omega) (by omega)

/-- Value of a decimal digit string, as folded up by the range parser. -/
def charsToNat (cs : List Char) : Nat :=
  cs.foldl (fun n c => n * 10 + (c.toNat - 48)) 0

/-- Modelled from the spec: `parseRange` of `LargeFileUploadTask`
(implementation missing from the source tree; behaviour per spec §4.1
and the test file). An empty sequence or an empty first element gives
the `{-1,-1}` sentinel; `"<min>-<max>"` gives `{min, max}`;
`"<min>-"` gives `{min, fileSize - 1}`. -/
def parseRange (fileSize : Nat) (ranges : List String) : Range :=
  match ranges with
  | [] => emptyRange
  | r :: _ =>
    let cs := r.data
    if cs.isEmpty then emptyRange
    else
      let minChars := cs.takeWhile (fun c => c != '-')
      let rest := (cs.dropWhile (fun c => c != '-')).drop 1
      if rest.isEmpty then ⟨(charsToNat minChars : Int), (fileSize : Int) - 1⟩
      else ⟨(charsToNat minChars : Int), (charsToNat rest : Int)⟩

/-- The registered progress-callback hooks of a task: which of the three
optional hooks are present, plus the opaque extra callback parameter
(modelled as the boolean value the tests pass through). -/
structure ProgressSpec where
  hasProgress : Bool
  hasCompleted : Bool
  hasFailure : Bool
  extraCallbackParams : Bool
  deriving DecidableEq, Repr

/-- Modelled from the spec: the state held by a `LargeFileUploadTask`
(implementation missing from the source tree): a content source, total
file size, configured chunk size, the upload session (url and expiry)
and the mutable next-range cursor, plus the callback configuration. -/
structure TaskState (α : Type) where
  content : α
  fileSize : Nat
  rangeSize : Nat
  sessionUrl : String
  expiry : String
  nextRange : Range
  callbacks : ProgressSpec
  deriving DecidableEq, Repr

/-- Modelled from the spec: task construction (implementation missing
from the source tree). The cursor starts at `{0, rangeSize - 1}`, so
that the first computed range of a fresh task starts at byte 0, as the
test `GetNextRange` block requires. -/
def mkTask (content : α) (fileSize rangeSize : Nat) (sessionUrl expiry : String)
    (callbacks : ProgressSpec) : TaskState α :=
  { content := content
    fileSize := fileSize
    rangeSize := rangeSize
    sessionUrl := sessionUrl
    expiry := expiry
    nextRange := ⟨0, (rangeSize : Int) - 1⟩
    callbacks := callbacks }

/-- A server upload-session status response: a refreshed expiry and the
next expected ranges, as in the test's `statusResponse` objects. -/
structure UploadStatusResponse where
  expirationDateTime : String
  nextExpectedRanges : List String
  deriving DecidableEq, Repr

/-- Modelled from the spec: `getNextRange` of `LargeFileUploadTask`
(implementation missing from the source tree; behaviour per spec §4.2
pinned by the `GetNextRange` tests): the sentinel cursor is returned
as is; otherwise the next range starts at the cursor's `minValue` and
ends at `min (minValue + rangeSize - 1) (fileSize - 1)`. -/
def getNextRange (t : TaskState α) : Range :=
  if t.nextRange.minValue == -1 then t.nextRange
  else
    let minVal := t.nextRange.minValue
    let maxValue := min (minVal + (t.rangeSize : Int) - 1) ((t.fileSize : Int) - 1)
    ⟨minVal, maxValue⟩

/-- Modelled from the spec: `updateTaskStatus` of `LargeFileUploadTask`
(implementation missing from the source tree; behaviour per spec §4.3):
refresh the session expiry and replace the cursor with the parse of the
server's next expected ranges; nothing else changes. -/
def updateTaskStatus (t : TaskState α) (s : UploadStatusResponse) : TaskState α :=
  { t with
    expiry := s.expirationDateTime
    nextRange := parseRange t.fileSize s.nextExpectedRanges }

/-- A parsed JSON response body, modelled as key/value pairs
(the tests only ever inspect string fields such as `id`). -/
def ResponseBody := List (String × String)
deriving DecidableEq, Repr

/-- The result of a completed upload: the `location` header and the
parsed body of the terminal response
(`src/tasks/FileUploadUtil/UploadResult`). -/
structure UploadResult where
  location : Option String
  responseBody : ResponseBody
  deriving DecidableEq, Repr

/-- A named error, as raised by the upload task (`name` and `message`
mirror the fields asserted on in the test file). -/
structure GraphError where
  name : String
  message : String
  deriving DecidableEq, Repr

/-- The `Invalid Session` error thrown when `upload()` is invoked on an
already-completed task, with the exact name and message asserted by the
test file. -/
def invalidSessionError : GraphError :=
  { name := "Invalid Session"
    message := "Task with which you are trying to upload is already completed, Please check for your uploaded file" }

/-- Error used when the transport yields no further response. -/
def transportExhaustedError : GraphError :=
  { name := "TransportError", message := "no response from transport" }

/-- Error for a terminal response with an unexpected status code. -/
def protocolError (status : Nat) : GraphError :=
  { name := "ProtocolError", message := "unexpected status code" }

/-- One raw response of the transport boundary to a slice request:
either a 202-style continue response carrying an updated session
status, or a final response with a status code, optional `location`
header and parsed body. -/
inductive SliceResponse where
  | next (status : UploadStatusResponse)
  | final (statusCode : Nat) (location : Option String) (body : ResponseBody)
  deriving DecidableEq, Repr

/-- An observable hook invocation of the progress callback set. -/
inductive HookEvent where
  | progress (r : Range)
  | completed (result : UploadResult) (extra : Bool)
  | failure (err : GraphError) (extra : Bool)
  deriving DecidableEq, Repr

/-- Terminal phase reported by one `upload()` call. -/
inductive TaskPhase where
  | completed
  | failed
  deriving DecidableEq, Repr

/-- The full observable outcome of one `upload()` call: the settled
result, the ranges actually sent over the transport (in order), the
hook invocations (in order), the task state afterwards and the
terminal phase. -/
structure UploadOutcome (α : Type) where
  result : Except GraphError UploadResult
  calls : List Range
  events : List HookEvent
  final : TaskState α
  phase : TaskPhase

/-- The failure-hook events fired for an error, given the callback
configuration: one `failure` invocation if the hook is registered,
none otherwise. -/
def failureEvents (cb : ProgressSpec) (e : GraphError) : List HookEvent :=
  if cb.hasFailure then [HookEvent.failure e cb.extraCallbackParams] else []

/-- The completed-hook events fired for a successful result. -/
def completedEvents (cb : ProgressSpec) (res : UploadResult) : List HookEvent :=
  if cb.hasCompleted then [HookEvent.completed res cb.extraCallbackParams] else []

/-- The progress-hook events fired after an accepted slice. -/
def progressEvents (cb : ProgressSpec) (r : Range) : List HookEvent :=
  if cb.hasProgress then [HookEvent.progress r] else []

/-- Modelled from the spec: the `upload()` loop of
`LargeFileUploadTask` (implementation missing from the source tree;
behaviour per spec §4.4 pinned by the `Upload File` tests). The
transport boundary is modelled as the list of raw responses the
successive slice requests would receive. As its very first action each
iteration computes the next range and fails with `Invalid Session` —
firing the failure hook, making no transport call — when it is the
empty sentinel; a 202-style response updates the task status, fires the
progress hook and continues; a final 200/201 response produces the
`UploadResult` from the `location` header and parsed body, marks the
task completed and fires the completed hook; any other final status
fails the task. -/
def upload (t : TaskState α) (responses : List SliceResponse) : UploadOutcome α :=
    let nr := getNextRange t
    if nr.isEmptySentinel then
      { result := Except.error invalidSessionError
        calls := []
        events := failureEvents t.callbacks invalidSessionError
        final := t
        phase := TaskPhase.completed }
    else
      match responses with
      | [] =>
        { result := Except.error transportExhaustedError
          calls := [nr]
          events := failureEvents t.callbacks transportExhaustedError
          final := t
          phase := TaskPhase.failed }
      | SliceResponse.final code loc body :: _ =>
        if code == 200 || code == 201 then
          let res : UploadResult := { location := loc, responseBody := body }
          { result := Except.ok res
            calls := [nr]
            events := completedEvents t.callbacks res
            final := t
            phase := TaskPhase.completed }
        else
          { result := Except.error (protocolError code)
            calls := [nr]
            events := failureEvents t.callbacks (protocolError code)
            final := t
            phase := TaskPhase.failed }
      | SliceResponse.next status :: rest =>
        let t' := updateTaskStatus t status
        let sub := upload t' rest
        { result := sub.result
          calls := nr :: sub.calls
          events := progressEvents t.callbacks nr ++ sub.events
          final := sub.final
          phase := sub.phase }
termination_by responses.length
decreasing_by
  simp

/-! ## Simulation harness for the range-coverage invariant

A cooperative server accepts each uploaded slice and reports, through
`nextExpectedRanges`, the open-ended range starting just past the
accepted slice, or the empty sequence once the file is exhausted. -/

/-- The open-ended range expression string `"<n>-"`. -/
def openRangeString (n : Nat) : String :=
  String.mk (natChars n ++ ['-'])

/-- The `nextExpectedRanges` a cooperative server reports after
accepting the slice `r` of a file of size `fileSize`. -/
def acceptance (fileSize : Nat) (r : Range) : List String :=
  if r.maxValue + 1 ≥ (fileSize : Int) then []
  else [openRangeString (r.maxValue + 1).toNat]

/-- One simulation step: compute the next range and apply the server's
acceptance of it via `updateTaskStatus`. -/
def simStep (t : TaskState α) : TaskState α :=
  updateTaskStatus t
    { expirationDateTime := t.expiry
      nextExpectedRanges := acceptance t.fileSize (getNextRange t) }

/-- Run the acceptance simulation for at most `fuel` slices, collecting
the ranges returned by `getNextRange` until it yields the sentinel;
returns the collected ranges and the final task state. -/
def simRun (fuel : Nat) (t : TaskState α) : List Range × TaskState α :=
  match fuel with
  | 0 => ([], t)
  | fuel + 1 =>
    if (getNextRange t).isEmptySentinel then ([], t)
    else (getNextRange t :: (simRun fuel (simStep t)).1,
      (simRun fuel (simStep t)).2)

/-- The bytes of a range, as the list of its offsets in order. -/
def Range.toByteList (r : Range) : List Nat :=
  List.range' r.minValue.toNat (r.maxValue - r.minValue + 1).toNat

/-! ## StreamUpload (`src/tasks/FileUploadUtil/FileObjectClasses/StreamUpload.ts`) -/

/-- State of a Node `Readable` stream as observed by `StreamUpload`:
the bytes currently buffered, and whether `end` has been emitted
(`readable` is true until the stream ends or errors). -/
structure ReadableState where
  buffered : List Nat
  ended : Bool
  deriving DecidableEq, Repr

/-- The `readable` flag of the stream: safe to call `read()` while the
stream has not been destroyed or emitted `end`. -/
def ReadableState.readable (s : ReadableState) : Bool :=
  !s.ended

/-- An asynchronous event delivered to the handlers that
`readNBytesFromStream` registers: either new data arrives (making the
stream emit `readable`), or the stream ends. -/
inductive StreamEvent where
  | data (chunk : List Nat)
  | endEvent
  deriving DecidableEq, Repr

/-- The observable settlement of the `sliceFile` promise. -/
inductive SliceOutcome where
  | resolved (bytes : List Nat)
  | rejected (message : String)
  | pending
  deriving DecidableEq, Repr

/-- The `while` loop of the `readable` handler in
`readNBytesFromStream`: while fewer than `size` bytes are accumulated,
`read(remainder)` returns `remainder` bytes when that many are
buffered, the whole remaining buffer when the stream has ended and the
buffer is non-empty, and `null` otherwise (ending the loop). Returns
the accumulated length, the accumulated bytes and the remaining
buffer. -/
def drain (size : Nat) (len : Nat) (acc : List Nat) (ended : Bool)
    (buf : List Nat) : Nat × List Nat × List Nat :=
  if _h1 : len < size then
    if _h2 : size - len ≤ buf.length then
      drain size (len + (size - len)) (acc ++ buf.take (size - len)) ended
        (buf.drop (size - len))
    else if _h3 : ended = true ∧ buf ≠ [] then
      drain size (len + buf.length) (acc ++ buf) ended []
    else (len, acc, buf)
  else (len, acc, buf)
termination_by buf.length
decreasing_by
  · simp
    omega
  · have h4 : buf.length ≠ 0 := by
      intro h0
      exact _h3.2 (List.length_eq_zero.mp h0)
    simp
    omega

/-- The event-driven body of `readNBytesFromStream`: the `end` handler
rejects when bytes are still missing; the `readable` handler drains the
buffer, resolving once exactly `size` bytes are accumulated, rejecting
when the stream is no longer readable, and staying pending otherwise. -/
def readNBytesFromStream (size : Nat) (len : Nat) (acc : List Nat)
    (ended : Bool) (buf : List Nat) : List StreamEvent → SliceOutcome
  | [] => SliceOutcome.pending
  | StreamEvent.endEvent :: rest =>
    if size - len > 0 then
      SliceOutcome.rejected "Stream ended before reading required range size"
    else readNBytesFromStream size len acc true buf rest
  | StreamEvent.data chunk :: rest =>
    if (drain size len acc ended (buf ++ chunk)).1 == size then
      SliceOutcome.resolved (drain size len acc ended (buf ++ chunk)).2.1
    else if ended then
      SliceOutcome.rejected "Error encountered while reading the stream during the upload"
    else readNBytesFromStream size (drain size len acc ended (buf ++ chunk)).1
      (drain size len acc ended (buf ++ chunk)).2.1 ended
      (drain size len acc ended (buf ++ chunk)).2.2 rest

/-- `StreamUpload.sliceFile`: with the stream readable and at least
`rangeSize` bytes buffered, `read(rangeSize)` returns them
synchronously; with fewer buffered it falls back to
`readNBytesFromStream`; with the stream not readable it rejects. -/
def sliceFile (st : ReadableState) (range : Range)
    (events : List StreamEvent) : SliceOutcome :=
  if st.readable then
    if (range.maxValue - range.minValue + 1).toNat ≤ st.buffered.length then
      SliceOutcome.resolved
        (st.buffered.take (range.maxValue - range.minValue + 1).toNat)
    else readNBytesFromStream (range.maxValue - range.minValue + 1).toNat 0 []
      st.ended st.buffered events
  else SliceOutcome.rejected "Stream is not readable."

/-- A constructed `StreamUpload` object: a readable-stream content
source, a file name and a declared size. -/
structure StreamUpload where
  content : ReadableState
  name : String
  size : Nat
  deriving DecidableEq, Repr

/-- A `GraphClientError` carrying its message. -/
structure GraphClientError where
  message : String
  deriving DecidableEq, Repr

/-- The `StreamUpload` constructor: throws a `GraphClientError` when
the content, the name or the size is falsy (`null`/`undefined` content,
empty name, zero size), and otherwise stores the three fields. -/
def StreamUpload.create (content : Option ReadableState) (name : String)
    (size : Nat) : Except GraphClientError StreamUpload :=
  match content with
  | none =>
    Except.error ⟨"Please provide the Readable Stream content, name of the file and size of the file"⟩
  | some c =>
    if name == "" || size == 0 then
      Except.error ⟨"Please provide the Readable Stream content, name of the file and size of the file"⟩
    else Except.ok { content := c, name := name, size := size }

/-! ## PageIterator (`src/tasks/PageIterator.ts`) -/

/-- The loop of `PageIterator.iterationHelper` over a (defined)
collection: entries are `shift`ed from the front one at a time and
handed to the callback; a `false` return stops the loop. Returns the
remaining collection, the delivered entries in order, and the advance
flag. -/
def iterationHelperList (cb : α → Bool) : List α → List α × List α × Bool
  | [] => ([], [], true)
  | x :: xs =>
    if cb x then
      let out := iterationHelperList cb xs
      (out.1, x :: out.2.1, out.2.2)
    else (xs, [x], false)

/-- `PageIterator.iterate`, with the remote modelled as the list of
pages successive `nextLink` fetches would return (an empty list models
an undefined `nextLink`). Returns the final collection, the pages left
unfetched, the entries delivered to the callback in order, and the
number of fetches performed. An undefined collection makes
`iterationHelper` return `false` immediately, so nothing is delivered
and nothing is fetched. -/
def iterate (cb : α → Bool) :
    Option (List α) → List (List α) → Option (List α) × List (List α) × List α × Nat
  | none, pages => (none, pages, [], 0)
  | some col, pages =>
    let h := iterationHelperList cb col
    if h.2.2 then
      match pages with
      | [] => (some h.1, [], h.2.1, 0)
      | p :: ps =>
        let out := iterate cb (some p) ps
        (out.1, out.2.1, h.2.1 ++ out.2.2.1, out.2.2.2 + 1)
    else (some h.1, pages, h.2.1, 0)
termination_by _ pages => pages.length
decreasing_by
  simp

/-- The reachable task state of the test scenario for the next-range
computation: file size 328680, chunk size 327680, cursor {327680,
328679} as produced by the server status nextExpectedRanges =
["327680-"]. -/
def claim4State : TaskState Unit :=
  updateTaskStatus (mkTask () 328680 327680 "test url" "e" ⟨false, false, false, false⟩)
    { expirationDateTime := "2018-08-06T09:05:45.195Z"
      nextExpectedRanges := ["327680-"] }

/-! ## Lemmas about decimal digit strings -/

theorem digitChar_toNat (d : Nat) (h : d < 10) : (digitChar d).toNat = 48 + d := by
  interval_cases d <;> rfl

theorem digitChar_ne_dash (d : Nat) (h : d < 10) : (digitChar d != '-') = true := by
  interval_cases d <;> decide

theorem natChars_ne_nil (n : Nat) : natChars n ≠ [] := by
  rw [natChars]
  split
  · simp
  · simp

theorem natChars_digits (n : Nat) : ∀ c ∈ natChars n, ∃ d, d < 10 ∧ c = digitChar d := by
  induction n using Nat.strong_induction_on with
  | _ n ih =>
    rw [natChars]
    split
    case isTrue h =>
      intro c hc
      simp only [List.mem_singleton] at hc
      exact ⟨n, h, hc⟩
    case isFalse h =>
      intro c hc
      rw [List.mem_append] at hc
      rcases hc with hc | hc
      · exact ih (n / 10) (Nat.div_lt_self (by omega) (by omega)) c hc
      · simp only [List.mem_singleton] at hc
        exact ⟨n % 10, Nat.mod_lt _ (by omega), hc⟩

theorem natChars_ne_dash (n : Nat) : ∀ c ∈ natChars n, (c != '-') = true := by
  intro c hc
  obtain ⟨d, hd, rfl⟩ := natChars_digits n c hc
  exact digitChar_ne_dash d hd

theorem foldl_natChars (n : Nat) : ∀ a : Nat,
    List.foldl (fun m c => m * 10 + (c.toNat - 48)) a (natChars n)
      = a * 10 ^ (natChars n).length + n := by
  induction n using Nat.strong_induction_on with
  | _ n ih =>
    intro a
    rw [natChars]
    split
    case isTrue h =>
      simp [digitChar_toNat n h]
    case isFalse h =>
      rw [List.foldl_append, ih (n / 10) (Nat.div_lt_self (by omega) (by omega)) a]
      simp only [List.foldl_cons, List.foldl_nil, List.length_append, List.length_cons,
        List.length_nil, Nat.zero_add, digitChar_toNat (n % 10) (Nat.mod_lt _ (by omega))]
      rw [pow_succ, ← Nat.mul_assoc]
      generalize a * 10 ^ (natChars (n / 10)).length = Q
      omega

theorem charsToNat_natChars (n : Nat) : charsToNat (natChars n) = n := by
  unfold charsToNat
  rw [foldl_natChars n 0]
  simp

theorem takeWhile_append_all {p : α → Bool} {l rest : List α}
    (h : ∀ c ∈ l, p c = true) :
    (l ++ rest).takeWhile p = l ++ rest.takeWhile p := by
  induction l with
  | nil => simp
  | cons x xs ih =>
    have hx : p x = true := h x (by simp)
    have hxs : ∀ c ∈ xs, p c = true := fun c hc => h c (by simp [hc])
    simp [List.takeWhile_cons, hx, ih hxs]

theorem dropWhile_append_all {p : α → Bool} {l rest : List α}
    (h : ∀ c ∈ l, p c = true) :
    (l ++ rest).dropWhile p = rest.dropWhile p := by
  induction l with
  | nil => simp
  | cons x xs ih =>
    have hx : p x = true := h x (by simp)
    have hxs : ∀ c ∈ xs, p c = true := fun c hc => h c (by simp [hc])
    simp [List.dropWhile_cons, hx, ih hxs]

theorem parseRange_openString (F n : Nat) :
    parseRange F [openRangeString n] = ⟨(n : Int), (F : Int) - 1⟩ := by
  unfold parseRange openRangeString
  have hdata : (String.mk (natChars n ++ ['-'])).data = natChars n ++ ['-'] := rfl
  simp only [hdata]
  rw [takeWhile_append_all (natChars_ne_dash n),
    dropWhile_append_all (natChars_ne_dash n)]
  have hne : (natChars n ++ ['-']).isEmpty = false := by
    simp
  simp [hne, charsToNat_natChars]

theorem parseRange_closedString (F mn mx : Nat) :
    parseRange F [String.mk (natChars mn ++ '-' :: natChars mx)] =
      ⟨(mn : Int), (mx : Int)⟩ := by
  unfold parseRange
  have hdata : (String.mk (natChars mn ++ '-' :: natChars mx)).data
      = natChars mn ++ '-' :: natChars mx := rfl
  simp only [hdata]
  rw [takeWhile_append_all (natChars_ne_dash mn),
    dropWhile_append_all (natChars_ne_dash mn)]
  have hne : (natChars mn ++ '-' :: natChars mx).isEmpty = false := by
    simp
  have hmx : (natChars mx).isEmpty = false := by
    cases hmm : natChars mx with
    | nil => exact absurd hmm (natChars_ne_nil mx)
    | cons a l => rfl
  simp [hne, hmx, charsToNat_natChars]

/-! ## Claim theorems: range parsing and next-range computation -/

/-- C6: parseRange maps the empty sequence and the singleton empty
string to the empty sentinel; maps a first element "<min>-<max>" to
{min, max} (e.g. "100-200" to {100, 200}); and maps an open-ended
first element "<min>-" to {min, fileSize - 1} (e.g. "0-" against file
size 100000 to {0, 99999}). -/
theorem parseRange_spec (F mn mx : Nat) :
    parseRange F [] = emptyRange ∧
    parseRange F [""] = emptyRange ∧
    parseRange F [String.mk (natChars mn ++ '-' :: natChars mx)] =
      ⟨(mn : Int), (mx : Int)⟩ ∧
    parseRange 100000 ["100-200"] = ⟨100, 200⟩ ∧
    parseRange F [openRangeString mn] = ⟨(mn : Int), (F : Int) - 1⟩ ∧
    parseRange 100000 ["0-"] = ⟨0, 99999⟩ := by
  refine ⟨rfl, rfl, parseRange_closedString F mn mx, by decide,
    parseRange_openString F mn, by decide⟩

/-- C5: over a file of size 328680 with chunk size 327680, a fresh
task's first getNextRange is {0, 327679}; after updateTaskStatus
applies a server status with nextExpectedRanges = ["327680-"], the
next getNextRange is {327680, 328679}. -/
theorem getNextRange_scenario :
    (getNextRange (mkTask () 328680 327680 "test url" "e"
        ⟨false, false, false, false⟩) = ⟨0, 327679⟩) ∧
    (getNextRange (updateTaskStatus
        (mkTask () 328680 327680 "test url" "e" ⟨false, false, false, false⟩)
        { expirationDateTime := "2018-08-06T09:05:45.195Z"
          nextExpectedRanges := ["327680-"] }) = ⟨327680, 328679⟩) := by
  constructor
  · decide
  · decide

/-- C8: updateTaskStatus refreshes the session expiry from the server
status and replaces the range cursor with the parse of the server's
next expected ranges; the content source, file size, chunk size,
session URL and callback configuration are unchanged, and an empty
nextExpectedRanges sequence leaves the cursor at the sentinel. -/
theorem updateTaskStatus_spec {α : Type} (t : TaskState α) (s : UploadStatusResponse) :
    (updateTaskStatus t s).expiry = s.expirationDateTime ∧
    (updateTaskStatus t s).nextRange = parseRange t.fileSize s.nextExpectedRanges ∧
    (updateTaskStatus t s).content = t.content ∧
    (updateTaskStatus t s).fileSize = t.fileSize ∧
    (updateTaskStatus t s).rangeSize = t.rangeSize ∧
    (updateTaskStatus t s).sessionUrl = t.sessionUrl ∧
    (updateTaskStatus t s).callbacks = t.callbacks ∧
    (s.nextExpectedRanges = [] → (updateTaskStatus t s).nextRange = emptyRange) := by
  refine ⟨rfl, rfl, rfl, rfl, rfl, rfl, rfl, ?_⟩
  intro h
  simp [updateTaskStatus, h, parseRange]

theorem updateTaskStatus_spec_witness :
    (updateTaskStatus (mkTask () 100000 327680 "u" "e" ⟨false, false, false, false⟩)
      ⟨"2018-08-06T09:05:45.195Z", []⟩).nextRange = emptyRange :=
  (updateTaskStatus_spec (mkTask () 100000 327680 "u" "e" ⟨false, false, false, false⟩)
      ⟨"2018-08-06T09:05:45.195Z", []⟩).2.2.2.2.2.2.2 rfl

/-- C9: the StreamUpload constructor throws a GraphClientError whenever
the content stream, the file name or the size is falsy — in particular
a missing stream, an empty name or a declared size of 0 — so every
constructed StreamUpload has a present content stream, a non-empty name
and a non-zero size. -/
theorem streamUpload_create_spec (c : Option ReadableState) (nm : String) (sz : Nat)
    (st : ReadableState) :
    StreamUpload.create none nm sz =
      Except.error ⟨"Please provide the Readable Stream content, name of the file and size of the file"⟩ ∧
    StreamUpload.create (some st) "" sz =
      Except.error ⟨"Please provide the Readable Stream content, name of the file and size of the file"⟩ ∧
    StreamUpload.create (some st) nm 0 =
      Except.error ⟨"Please provide the Readable Stream content, name of the file and size of the file"⟩ ∧
    (∀ u, StreamUpload.create c nm sz = Except.ok u →
      c = some u.content ∧ nm ≠ "" ∧ sz ≠ 0 ∧ u.name = nm ∧ u.size = sz) := by
  refine ⟨rfl, by simp [StreamUpload.create], by simp [StreamUpload.create], ?_⟩
  intro u h
  cases c with
  | none =>
    have hdef : StreamUpload.create none nm sz =
        Except.error ⟨"Please provide the Readable Stream content, name of the file and size of the file"⟩ := rfl
    rw [hdef] at h
    exact Except.noConfusion h
  | some c0 =>
    simp only [StreamUpload.create] at h
    split at h
    · exact Except.noConfusion h
    case isFalse hcond =>
      injection h with h2
      subst h2
      simp only [Bool.or_eq_true, beq_iff_eq, not_or] at hcond
      exact ⟨rfl, hcond.1, hcond.2, rfl, rfl⟩

theorem streamUpload_create_spec_witness :
    some (⟨[0], false⟩ : ReadableState) =
        some (⟨⟨[0], false⟩, "sample_image.jpg", 5⟩ : StreamUpload).content ∧
      ("sample_image.jpg" : String) ≠ "" ∧ (5 : Nat) ≠ 0 ∧
      (⟨⟨[0], false⟩, "sample_image.jpg", 5⟩ : StreamUpload).name = "sample_image.jpg" ∧
      (⟨⟨[0], false⟩, "sample_image.jpg", 5⟩ : StreamUpload).size = 5 :=
  (streamUpload_create_spec (some ⟨[0], false⟩) "sample_image.jpg" 5
    ⟨[0], false⟩).2.2.2 ⟨⟨[0], false⟩, "sample_image.jpg", 5⟩ (by simp [StreamUpload.create])

/-- C4 counterexample: at the reachable state with cursor {327680,
328679} over a file of size 328680, the claim predicts a next range
starting at cursor.maxValue + 1 = 328680 and — that base having
reached the file size — the empty sentinel; getNextRange instead
returns {327680, 328679}, starting at cursor.minValue, exactly as the
test asserts. -/
theorem getNextRange_claim4_counterexample :
    claim4State.nextRange = ⟨327680, 328679⟩ ∧
    claim4State.nextRange.isEmptySentinel = false ∧
    getNextRange claim4State = ⟨327680, 328679⟩ ∧
    (getNextRange claim4State).minValue ≠ claim4State.nextRange.maxValue + 1 ∧
    getNextRange claim4State ≠ emptyRange := by
  decide

/-- C4 (amended): for every task state whose range cursor is not the
empty sentinel, getNextRange returns the range starting at
cursor.minValue (the tracked base) and ending at min(base + rangeSize
- 1, fileSize - 1); the empty sentinel is returned exactly when the
cursor itself is the sentinel set by an exhausted session, not when a
base reaches the file size. -/
theorem getNextRange_spec {α : Type} (t : TaskState α) :
    (t.nextRange.minValue ≠ -1 →
      getNextRange t = ⟨t.nextRange.minValue,
        min (t.nextRange.minValue + (t.rangeSize : Int) - 1) ((t.fileSize : Int) - 1)⟩) ∧
    (t.nextRange.minValue = -1 → getNextRange t = t.nextRange) := by
  constructor <;> intro h <;> simp [getNextRange, h]

theorem getNextRange_spec_witness :
    getNextRange claim4State = ⟨claim4State.nextRange.minValue,
      min (claim4State.nextRange.minValue + (claim4State.rangeSize : Int) - 1)
        ((claim4State.fileSize : Int) - 1)⟩ :=
  (getNextRange_spec claim4State).1 (by decide)

/-- C1: upload() on a task already in the completed terminal state —
its cursor the empty sentinel, as after an empty nextExpectedRanges
status has been applied — fails with the Invalid Session error
carrying the configured name and message, performs no transport call,
fires the failure hook exactly when one is registered, and never fires
the progress or completed hooks. -/
theorem upload_invalidSession {α : Type} (t : TaskState α)
    (h : t.nextRange = emptyRange) (responses : List SliceResponse) :
    (upload t responses).result = Except.error invalidSessionError ∧
    invalidSessionError.name = "Invalid Session" ∧
    invalidSessionError.message =
      "Task with which you are trying to upload is already completed, Please check for your uploaded file" ∧
    (upload t responses).calls = [] ∧
    (upload t responses).events =
      (if t.callbacks.hasFailure then
        [HookEvent.failure invalidSessionError t.callbacks.extraCallbackParams] else []) ∧
    (∀ r, HookEvent.progress r ∉ (upload t responses).events) ∧
    (∀ res ex, HookEvent.completed res ex ∉ (upload t responses).events) := by
  have hs : (getNextRange t).isEmptySentinel = true := by
    simp [getNextRange, h, emptyRange, Range.isEmptySentinel]
  rw [upload.eq_def]
  simp only [hs, if_true]
  refine ⟨by trivial, by trivial, by trivial, by trivial, by trivial, ?_, ?_⟩
  · intro r
    unfold failureEvents
    split <;> simp
  · intro res ex
    unfold failureEvents
    split <;> simp

theorem upload_invalidSession_witness :
    (upload (updateTaskStatus
        (mkTask () 328680 327680 "test url" "e" ⟨true, true, true, true⟩)
        ⟨"2018-08-06T09:05:45.195Z", []⟩)
      [SliceResponse.final 201 (some "TEST_URL") [("id", "TEST_ID")]]).result =
        Except.error invalidSessionError ∧
    (upload (updateTaskStatus
        (mkTask () 328680 327680 "test url" "e" ⟨true, true, true, true⟩)
        ⟨"2018-08-06T09:05:45.195Z", []⟩)
      [SliceResponse.final 201 (some "TEST_URL") [("id", "TEST_ID")]]).calls = [] :=
  let h := upload_invalidSession
    (updateTaskStatus (mkTask () 328680 327680 "test url" "e" ⟨true, true, true, true⟩)
      ⟨"2018-08-06T09:05:45.195Z", []⟩) (by decide)
    [SliceResponse.final 201 (some "TEST_URL") [("id", "TEST_ID")]]
  ⟨h.1, h.2.2.2.1⟩

/-! ## Unfolding lemmas for the upload loop -/

theorem upload_final_eq {α : Type} (t : TaskState α) (code : Nat) (loc : Option String)
    (body : ResponseBody) (rest : List SliceResponse)
    (h : (getNextRange t).isEmptySentinel = false) :
    upload t (SliceResponse.final code loc body :: rest) =
      if code == 200 || code == 201 then
        { result := Except.ok ⟨loc, body⟩
          calls := [getNextRange t]
          events := completedEvents t.callbacks ⟨loc, body⟩
          final := t
          phase := TaskPhase.completed }
      else
        { result := Except.error (protocolError code)
          calls := [getNextRange t]
          events := failureEvents t.callbacks (protocolError code)
          final := t
          phase := TaskPhase.failed } := by
  rw [upload.eq_def]
  simp [h]

theorem upload_next_eq {α : Type} (t : TaskState α) (status : UploadStatusResponse)
    (rest : List SliceResponse) (h : (getNextRange t).isEmptySentinel = false) :
    upload t (SliceResponse.next status :: rest) =
      { result := (upload (updateTaskStatus t status) rest).result
        calls := getNextRange t :: (upload (updateTaskStatus t status) rest).calls
        events := progressEvents t.callbacks (getNextRange t) ++
          (upload (updateTaskStatus t status) rest).events
        final := (upload (updateTaskStatus t status) rest).final
        phase := (upload (updateTaskStatus t status) rest).phase } := by
  rw [upload.eq_def]
  simp [h]

theorem upload_nil_eq {α : Type} (t : TaskState α)
    (h : (getNextRange t).isEmptySentinel = false) :
    upload t [] =
      { result := Except.error transportExhaustedError
        calls := [getNextRange t]
        events := failureEvents t.callbacks transportExhaustedError
        final := t
        phase := TaskPhase.failed } := by
  rw [upload.eq_def]
  simp [h]

/-- Helper: a successful UploadResult only ever arises from a terminal
200/201 response in the transport's response list, and is built from
that response's location header and parsed body. -/
theorem upload_ok_source {α : Type} :
    ∀ (rs : List SliceResponse) (t : TaskState α) (res : UploadResult),
      (upload t rs).result = Except.ok res →
      ∃ c l b, SliceResponse.final c l b ∈ rs ∧ (c = 200 ∨ c = 201) ∧
        res = ⟨l, b⟩ := by
  intro rs
  induction rs with
  | nil =>
    intro t res h
    by_cases hs : (getNextRange t).isEmptySentinel = true
    · rw [upload.eq_def] at h
      simp only [hs, if_true] at h
      exact Except.noConfusion h
    · rw [upload_nil_eq t (by simpa using hs)] at h
      exact Except.noConfusion h
  | cons r rest ih =>
    intro t res h
    by_cases hs : (getNextRange t).isEmptySentinel = true
    · rw [upload.eq_def] at h
      simp only [hs, if_true] at h
      exact Except.noConfusion h
    · cases r with
      | final code loc body =>
        rw [upload_final_eq t code loc body rest (by simpa using hs)] at h
        by_cases hc : (code == 200 || code == 201) = true
        · rw [if_pos hc] at h
          simp only at h
          injection h with h2
          refine ⟨code, loc, body, by simp, ?_, h2.symm⟩
          simpa [Nat.or_comm] using (by simpa using hc : code = 200 ∨ code = 201)
        · rw [if_neg hc] at h
          exact Except.noConfusion h
      | next status =>
        rw [upload_next_eq t status rest (by simpa using hs)] at h
        simp only at h
        obtain ⟨c, l, b, hmem, hcode, hres⟩ := ih (updateTaskStatus t status) res h
        exact ⟨c, l, b, by simp [hmem], hcode, hres⟩

/-- C3: when the (final) slice request receives a terminal 200 or 201
response, upload() returns the UploadResult built from the response's
location header and parsed body, the task reaches the Completed phase,
the completed hook fires exactly once with the result and the extra
callback parameters while neither the progress nor the failure hook
fires; and a successful UploadResult arises from no other path than a
terminal 200/201 response. -/
theorem upload_terminalSuccess {α : Type} (t : TaskState α) (code : Nat)
    (loc : Option String) (body : ResponseBody) (rest : List SliceResponse)
    (hnr : (getNextRange t).isEmptySentinel = false)
    (hcode : code = 200 ∨ code = 201) :
    (upload t (SliceResponse.final code loc body :: rest)).result =
      Except.ok ⟨loc, body⟩ ∧
    (upload t (SliceResponse.final code loc body :: rest)).phase =
      TaskPhase.completed ∧
    (upload t (SliceResponse.final code loc body :: rest)).events =
      completedEvents t.callbacks ⟨loc, body⟩ ∧
    (t.callbacks.hasCompleted = true →
      (upload t (SliceResponse.final code loc body :: rest)).events =
        [HookEvent.completed ⟨loc, body⟩ t.callbacks.extraCallbackParams]) ∧
    (∀ r, HookEvent.progress r ∉
      (upload t (SliceResponse.final code loc body :: rest)).events) ∧
    (∀ e ex, HookEvent.failure e ex ∉
      (upload t (SliceResponse.final code loc body :: rest)).events) ∧
    (∀ (u : TaskState α) (rs : List SliceResponse) (res : UploadResult),
      (upload u rs).result = Except.ok res →
      ∃ c l b, SliceResponse.final c l b ∈ rs ∧ (c = 200 ∨ c = 201) ∧
        res = ⟨l, b⟩) := by
  have hc : (code == 200 || code == 201) = true := by
    rcases hcode with h | h <;> simp [h]
  rw [upload_final_eq t code loc body rest hnr, if_pos hc]
  refine ⟨rfl, rfl, rfl, ?_, ?_, ?_, fun u rs res h => upload_ok_source rs u res h⟩
  · intro h
    simp [completedEvents, h]
  · intro r
    unfold completedEvents
    split <;> simp
  · intro e ex
    unfold completedEvents
    split <;> simp

theorem upload_terminalSuccess_witness :
    (upload (mkTask () 328680 327680 "test url" "e" ⟨true, true, true, true⟩)
      [SliceResponse.final 201 (some "TEST_URL") [("id", "TEST_ID")]]).result =
        Except.ok ⟨some "TEST_URL", [("id", "TEST_ID")]⟩ ∧
    (upload (mkTask () 328680 327680 "test url" "e" ⟨true, true, true, true⟩)
      [SliceResponse.final 201 (some "TEST_URL") [("id", "TEST_ID")]]).events =
        [HookEvent.completed ⟨some "TEST_URL", [("id", "TEST_ID")]⟩ true] :=
  let h := upload_terminalSuccess
    (mkTask () 328680 327680 "test url" "e" ⟨true, true, true, true⟩)
    201 (some "TEST_URL") [("id", "TEST_ID")] [] (by decide) (Or.inr rfl)
  ⟨h.1, h.2.2.2.1 rfl⟩

/-! ## PageIterator lemmas -/

/-- Helper: the iteration loop delivers a prefix of the collection in
order — delivered entries followed by the retained remainder
reassemble the collection — and drains it entirely when the advance
flag remains true. -/
theorem iterationHelperList_spec (cb : α → Bool) (col : List α) :
    (iterationHelperList cb col).2.1 ++ (iterationHelperList cb col).1 = col ∧
    ((iterationHelperList cb col).2.2 = true → (iterationHelperList cb col).1 = []) := by
  induction col with
  | nil => simp [iterationHelperList]
  | cons x xs ih =>
    by_cases h : cb x = true
    · simpa [iterationHelperList, h] using ih
    · simp [iterationHelperList, h]

/-- Helper: conservation across pages — every entry is exactly one of:
delivered, still in the final collection, or in a page not yet
fetched; in that order. -/
theorem iterate_conservation (cb : α → Bool) :
    ∀ (pages : List (List α)) (col : List α),
      (iterate cb (some col) pages).2.2.1 ++
        ((iterate cb (some col) pages).1.getD []) ++
        ((iterate cb (some col) pages).2.1).flatten = col ++ pages.flatten := by
  intro pages
  induction pages with
  | nil =>
    intro col
    rw [iterate.eq_def]
    simp only
    obtain ⟨hcol, hdrain⟩ := iterationHelperList_spec cb col
    split
    · simpa using hcol
    · simpa using hcol
  | cons p ps ih =>
    intro col
    obtain ⟨hcol, hdrain⟩ := iterationHelperList_spec cb col
    rcases hh : iterationHelperList cb col with ⟨rem, del, adv⟩
    rw [hh] at hcol hdrain
    simp only at hcol hdrain
    rw [iterate.eq_def]
    simp only [hh]
    cases adv with
    | false =>
      simp only [Bool.false_eq_true, if_false, Option.getD_some]
      rw [hcol]
    | true =>
      have hrem : rem = [] := hdrain rfl
      subst hrem
      simp only [List.append_nil] at hcol
      subst hcol
      simp only [if_true, List.flatten_cons]
      have hp := ih p
      simp only [List.append_assoc] at hp ⊢
      rw [hp]

/-- C10: PageIterator.iterate delivers the entries of the current page
collection to the callback one at a time in order, each at most once
(entries are removed from the front as delivered); when the callback
returns false, iteration stops with all undelivered entries retained
and no fetch performed, so a later resume continues with exactly the
next undelivered entry and never re-delivers or skips one; an
undefined collection makes iterate resolve without invoking the
callback or fetching. -/
theorem pageIterator_spec (cb resumeCb : α → Bool) (col : List α)
    (pages : List (List α)) :
    (iterationHelperList cb col).2.1 ++ (iterationHelperList cb col).1 = col ∧
    iterate cb none pages = (none, pages, [], 0) ∧
    (iterate cb (some col) pages).2.2.1 ++
      ((iterate cb (some col) pages).1.getD []) ++
      ((iterate cb (some col) pages).2.1).flatten = col ++ pages.flatten ∧
    (∀ rem del, iterationHelperList cb col = (rem, del, false) →
      iterate cb (some col) pages = (some rem, pages, del, 0) ∧
      (iterate resumeCb (some rem) pages).2.2.1 ++
        ((iterate resumeCb (some rem) pages).1.getD []) ++
        ((iterate resumeCb (some rem) pages).2.1).flatten = rem ++ pages.flatten) := by
  refine ⟨(iterationHelperList_spec cb col).1, ?_, iterate_conservation cb pages col, ?_⟩
  · rw [iterate.eq_def]
  · intro rem del hstop
    refine ⟨?_, iterate_conservation resumeCb pages rem⟩
    rw [iterate.eq_def]
    simp only [hstop]
    cases pages <;> rfl

theorem pageIterator_spec_witness :
    iterate (fun n => decide (n < 3)) (some [1, 2, 3, 4]) [[5, 6], [7]] =
      (some [4], [[5, 6], [7]], [1, 2, 3], 0) ∧
    (iterate (fun n => decide (n < 100)) (some [4]) [[5, 6], [7]]).2.2.1 ++
      ((iterate (fun n => decide (n < 100)) (some [4]) [[5, 6], [7]]).1.getD []) ++
      ((iterate (fun n => decide (n < 100)) (some [4]) [[5, 6], [7]]).2.1).flatten =
      [4] ++ [[5, 6], [7]].flatten :=
  let h := (pageIterator_spec (fun n => decide (n < 3)) (fun n => decide (n < 100))
    [1, 2, 3, 4] [[5, 6], [7]]).2.2.2 [4] [1, 2, 3] (by decide)
  ⟨h.1, h.2⟩

/-! ## StreamUpload lemmas -/

/-- Helper: the read loop of the readable handler keeps the
accumulated byte list in step with the accumulated count, and never
accumulates past the requested size. -/
theorem drain_spec (size : Nat) (len : Nat) (acc : List Nat) (ended : Bool)
    (buf : List Nat) :
    acc.length = len → len ≤ size →
    (drain size len acc ended buf).2.1.length = (drain size len acc ended buf).1 ∧
    (drain size len acc ended buf).1 ≤ size := by
  induction len, acc, ended, buf using drain.induct size with
  | case1 len acc ended buf h1 h2 ih =>
    intro hacc hle
    rw [drain]
    simp only [dif_pos h1, dif_pos h2]
    exact ih (by simp [hacc, List.length_take, Nat.min_eq_left h2]) (by omega)
  | case2 len acc ended buf h1 h2 h3 ih =>
    intro hacc hle
    rw [drain]
    simp only [dif_pos h1, dif_neg h2, dif_pos h3]
    exact ih (by simp [hacc]) (by omega)
  | case3 len acc ended buf h1 h2 h3 =>
    intro hacc hle
    rw [drain]
    simp only [dif_pos h1, dif_neg h2, dif_neg h3]
    exact ⟨hacc, hle⟩
  | case4 len acc ended buf h1 =>
    intro hacc hle
    rw [drain]
    simp only [dif_neg h1]
    exact ⟨hacc, hle⟩

/-- Helper: the event-driven reader only ever resolves with exactly
the requested number of bytes. -/
theorem readNBytesFromStream_exact (size : Nat) (events : List StreamEvent) :
    ∀ (len : Nat) (acc : List Nat) (ended : Bool) (buf : List Nat),
      acc.length = len → len ≤ size →
      ∀ bs, readNBytesFromStream size len acc ended buf events =
        SliceOutcome.resolved bs → bs.length = size := by
  induction events with
  | nil =>
    intro len acc ended buf _ _ bs h
    exact SliceOutcome.noConfusion h
  | cons e rest ih =>
    intro len acc ended buf hacc hle bs h
    cases e with
    | endEvent =>
      rw [readNBytesFromStream] at h
      split at h
      · exact SliceOutcome.noConfusion h
      · exact ih len acc true buf hacc hle bs h
    | data chunk =>
      rw [readNBytesFromStream] at h
      obtain ⟨hlen, hsz⟩ := drain_spec size len acc ended (buf ++ chunk) hacc hle
      split at h
      case isTrue hq =>
        injection h with h2
        subst h2
        rw [hlen]
        simpa using hq
      case isFalse hq =>
        split at h
        · exact SliceOutcome.noConfusion h
        · exact ih _ _ ended _ hlen hsz bs h

/-- C7: for every non-empty range of length n, sliceFile either
resolves with binary content of exactly n bytes or rejects with a
descriptive error — when the stream is not readable it rejects with
the corresponding message — and it never resolves with fewer than n
bytes. -/
theorem sliceFile_spec (st : ReadableState) (range : Range)
    (events : List StreamEvent)
    (hmin : 0 ≤ range.minValue) (hrange : range.minValue ≤ range.maxValue) :
    (∀ bs, sliceFile st range events = SliceOutcome.resolved bs →
      bs.length = (range.maxValue - range.minValue + 1).toNat ∧
      1 ≤ (range.maxValue - range.minValue + 1).toNat) ∧
    (st.readable = false →
      sliceFile st range events = SliceOutcome.rejected "Stream is not readable.") := by
  have hn : 1 ≤ (range.maxValue - range.minValue + 1).toNat := by omega
  constructor
  · intro bs h
    refine ⟨?_, hn⟩
    unfold sliceFile at h
    split at h
    case isTrue hr =>
      split at h
      case isTrue hbuf =>
        injection h with h2
        subst h2
        simp [List.length_take, Nat.min_eq_left hbuf]
      case isFalse hbuf =>
        exact readNBytesFromStream_exact _ events 0 [] st.ended st.buffered rfl
          (Nat.zero_le _) bs h
    case isFalse hr =>
      exact SliceOutcome.noConfusion h
  · intro hnr
    unfold sliceFile
    rw [if_neg (by simp [hnr])]

theorem sliceFile_spec_witness :
    ([1, 2, 3] : List Nat).length =
      (((⟨0, 2⟩ : Range)).maxValue - ((⟨0, 2⟩ : Range)).minValue + 1).toNat ∧
    1 ≤ (((⟨0, 2⟩ : Range)).maxValue - ((⟨0, 2⟩ : Range)).minValue + 1).toNat :=
  (sliceFile_spec ⟨[1, 2, 3, 4, 5], false⟩ ⟨0, 2⟩ [] (by decide) (by decide)).1
    [1, 2, 3] (by decide)

/-! ## Range coverage of the acceptance simulation -/

/-- Helper: once the cursor is the empty sentinel, the simulation
stops immediately and the next range stays the sentinel. -/
theorem simRun_sentinel {α : Type} (fuel : Nat) (t : TaskState α)
    (h : t.nextRange = emptyRange) :
    simRun fuel t = ([], t) ∧ (getNextRange t).isEmptySentinel = true := by
  have hg : getNextRange t = t.nextRange := by
    simp [getNextRange, h, emptyRange]
  have hs : (getNextRange t).isEmptySentinel = true := by
    rw [hg, h]
    rfl
  refine ⟨?_, hs⟩
  cases fuel with
  | zero => rfl
  | succ fuel =>
    rw [simRun]
    rw [if_pos hs]

/-- Helper: from any reachable state whose cursor base is b < F, the
simulation emits the consecutive ranges whose bytes are exactly
[b, F-1] in order and ends with the sentinel, given fuel at least
F - b. -/
theorem simRun_covers {α : Type} (F C : Nat) (hC : 0 < C) :
    ∀ (fuel : Nat) (t : TaskState α) (b : Nat),
      t.fileSize = F → t.rangeSize = C → t.nextRange.minValue = (b : Int) →
      b < F → F - b ≤ fuel →
      ((simRun fuel t).1.map Range.toByteList).flatten = List.range' b (F - b) ∧
      (getNextRange (simRun fuel t).2).isEmptySentinel = true := by
  intro fuel
  induction fuel with
  | zero =>
    intro t b hF hR hb hbF hfuel
    omega
  | succ fuel ih =>
    intro t b hF hR hb hbF hfuel
    have hbne : (t.nextRange.minValue == (-1 : Int)) = false := by
      rw [hb]
      simp only [beq_eq_false_iff_ne, ne_eq]
      omega
    have hnr : getNextRange t =
        ⟨(b : Int), min ((b : Int) + (C : Int) - 1) ((F : Int) - 1)⟩ := by
      unfold getNextRange
      rw [hbne]
      simp only [Bool.false_eq_true, if_false, hb, hR, hF]
    have hsent : (getNextRange t).isEmptySentinel = false := by
      rw [hnr]
      simp only [Range.isEmptySentinel]
      have : ((b : Int) == (-1 : Int)) = false := by
        simp only [beq_eq_false_iff_ne, ne_eq]
        omega
      rw [this]
      rfl
    rw [simRun, if_neg (by simp [hsent])]
    have hstep : simStep t = updateTaskStatus t
        { expirationDateTime := t.expiry
          nextExpectedRanges := acceptance F (getNextRange t) } := by
      unfold simStep
      rw [hF]
    rcases le_or_lt F (b + C) with hcase | hcase
    · -- last slice: the range reaches the end of the file
      have hmax : min ((b : Int) + (C : Int) - 1) ((F : Int) - 1) = (F : Int) - 1 := by
        rw [min_eq_right]
        omega
      have hacc : acceptance F (getNextRange t) = [] := by
        unfold acceptance
        rw [hnr]
        simp only [hmax]
        rw [if_pos (by omega)]
      have hnext : (simStep t).nextRange = emptyRange := by
        rw [hstep, hacc]
        rfl
      obtain ⟨hrun, hsen⟩ := simRun_sentinel fuel (simStep t) hnext
      rw [hrun]
      refine ⟨?_, hsen⟩
      simp only [List.map_cons, List.map_nil, List.flatten_cons, List.flatten_nil,
        List.append_nil]
      rw [hnr]
      unfold Range.toByteList
      simp only [hmax]
      have h1 : ((b : Int)).toNat = b := by omega
      have h2 : ((F : Int) - 1 - (b : Int) + 1).toNat = F - b := by omega
      rw [h1, h2]
    · -- intermediate slice: the server advances the base by C
      have hmax : min ((b : Int) + (C : Int) - 1) ((F : Int) - 1) =
          (b : Int) + (C : Int) - 1 := by
        rw [min_eq_left]
        omega
      have hacc : acceptance F (getNextRange t) =
          [openRangeString (b + C)] := by
        unfold acceptance
        rw [hnr]
        simp only [hmax]
        rw [if_neg (by omega)]
        have : ((b : Int) + (C : Int) - 1 + 1).toNat = b + C := by omega
        rw [this]
      have hnext : (simStep t).nextRange = ⟨((b + C : Nat) : Int), (F : Int) - 1⟩ := by
        rw [hstep, hacc]
        unfold updateTaskStatus
        simp only [hF]
        rw [parseRange_openString F (b + C)]
      have hFs : (simStep t).fileSize = F := by
        rw [hstep]
        unfold updateTaskStatus
        exact hF
      have hRs : (simStep t).rangeSize = C := by
        rw [hstep]
        unfold updateTaskStatus
        exact hR
      have hmin : (simStep t).nextRange.minValue = ((b + C : Nat) : Int) := by
        rw [hnext]
      obtain ⟨hcov, hsen⟩ := ih (simStep t) (b + C) hFs hRs hmin hcase (by omega)
      refine ⟨?_, hsen⟩
      simp only [List.map_cons, List.flatten_cons]
      rw [hnr]
      have hhead : Range.toByteList ⟨(b : Int), (b : Int) + (C : Int) - 1⟩ =
          List.range' b C := by
        unfold Range.toByteList
        have h1 : ((b : Int)).toNat = b := by omega
        have h2 : ((b : Int) + (C : Int) - 1 - (b : Int) + 1).toNat = C := by omega
        simp only [h1, h2]
      rw [hmax, hhead, hcov, show F - b = (F - (b + C)) + C by omega,
        ← List.range'_append_1 b C (F - (b + C))]

/-- C2: for every file size F > 0 and chunk size C > 0, starting from
a fresh task and repeatedly taking getNextRange then applying the
server's acceptance of that range, the returned ranges cover the byte
interval [0, F-1] exactly once — their byte lists concatenate to
exactly [0, 1, …, F-1], so no byte is skipped and none appears twice
— and the process terminates with getNextRange returning the empty
sentinel. -/
theorem simRun_coverage {α : Type} (F C : Nat) (hF : 0 < F) (hC : 0 < C)
    (content : α) (url e : String) (cb : ProgressSpec) :
    (((simRun F (mkTask content F C url e cb)).1.map Range.toByteList).flatten =
      List.range F) ∧
    (getNextRange (simRun F (mkTask content F C url e cb)).2).isEmptySentinel =
      true := by
  have h := simRun_covers F C hC F (mkTask content F C url e cb) 0 rfl rfl rfl hF
    (by omega)
  rw [List.range_eq_range']
  simpa using h

theorem simRun_coverage_witness :
    (((simRun 10 (mkTask () 10 3 "u" "e" ⟨false, false, false, false⟩)).1.map
      Range.toByteList).flatten = List.range 10) ∧
    (getNextRange (simRun 10
      (mkTask () 10 3 "u" "e" ⟨false, false, false, false⟩)).2).isEmptySentinel =
      true :=
  simRun_coverage 10 3 (by decide) (by decide) () "u" "e"
    ⟨false, false, false, false⟩

end MSGraph
